import Mathlib

/-!
# Verification of the Coeus version-control core (src/Coeus.mjs)

Shallow embedding of the Coeus class. The on-disk repository layout
(`.coeus/objects/*`, `.coeus/HEAD`, `.coeus/index`) is modelled as an explicit
`RepoState` record threaded through every operation:

* the objects directory is an association list from file name (the hex digest
  used as object key) to the stored bytes; a filesystem directory holds at most
  one file per name, so a write replaces any previous entry with the same key;
* the HEAD file is `Option String` (`none` = file absent, so `fs.readFile`
  rejects; `some s` = file present with content `s`, possibly empty);
* the index file is `Option (List FileEntry)` (`none` = file absent or not
  valid JSON, so `JSON.parse(await fs.readFile(...))` throws).

The SHA-1 digest (`crypto.createHash('sha1')...`) and the JSON serialization
of commit records (`JSON.stringify(commitData)`) are kept abstract: every
definition is parameterized over `hashObject : String → String` (the digest)
and `serializeCommit : CommitData → String` (the serialized record).  A stored
object remembers whether it was written as a raw file blob or as a serialized
commit record, and reading a commit object back (`JSON.parse` of the stored
bytes) returns the record itself — the JSON round-trip is modelled as exact.
Where a property of the real digest is needed (a SHA-1 hex digest is a
40-character string, and the digests of distinct inputs are distinct in any
run the program can realistically produce), it appears as an explicit
hypothesis on `hashObject`.

Failures (`fs.readFile` of a missing file, `JSON.parse` of garbage) are
modelled with `Option`/`VcsResult`; an operation that raises returns the
state at the moment of the throw, since an exception performs no rollback.
-/

set_option autoImplicit false

namespace Coeus

/-- An entry of the staging index (and of a commit's `files` array):
`{path: filePath, hash: fileHash}` as pushed by `updateStagingArea`. -/
structure FileEntry where
  path : String
  hash : String
deriving DecidableEq

/-- The record built by `commit`:
`{timestamp, message, files: index, parent: parentCommit}`.
`parent` is `Option String` because `getCurrentHead` returns either the HEAD
file's content (a string, possibly empty) or JavaScript `null`. -/
structure CommitData where
  timestamp : String
  message : String
  files : List FileEntry
  parent : Option String
deriving DecidableEq

/-- Bytes stored in the objects directory: either the raw content of an added
file, or the serialized record of a commit.  The constructor records which of
the two `fs.writeFile` call sites produced the object. -/
inductive StoredObj where
  | blob (content : String)
  | commitObj (c : CommitData)
deriving DecidableEq

/-- The persisted repository layout: objects directory, HEAD file, index file. -/
structure RepoState where
  objects : List (String × StoredObj)
  head : Option String
  index : Option (List FileEntry)
deriving DecidableEq

/-- Model of `fs.writeFile(path.join(this.objectsPath, key), v)`: creating a file named
`key` in the objects directory replaces any existing file with that name. -/
def writeObject (objects : List (String × StoredObj)) (key : String)
    (v : StoredObj) : List (String × StoredObj) :=
  (key, v) :: objects.filter (fun e => ¬ (e.1 = key))

/-- Model of `fs.readFile(path.join(this.objectsPath, key))`: `none` when no object
file with that name exists (the read rejects). -/
def readObject (objects : List (String × StoredObj)) (key : String) :
    Option StoredObj :=
  (objects.find? (fun e => e.1 = key)).map (·.2)

/-- JavaScript truthiness of the values `getCurrentHead` can produce:
`null` and the empty string are falsy, all other strings truthy.  This is the
test performed by `while(currentCommitHash)` and `if(commitData.parent)`. -/
def jsTruthy : Option String → Bool
  | none => false
  | some s => ¬ (s = "")

/-- Result of an operation that can throw: `ok` is normal completion, `failed`
is a raised error together with the persisted state at the moment of the
throw (an exception does not roll anything back). -/
inductive VcsResult where
  | ok (s : RepoState)
  | failed (e : String) (s : RepoState)
deriving DecidableEq

/-- The persisted state after the operation, whether or not it threw. -/
def VcsResult.state : VcsResult → RepoState
  | .ok s => s
  | .failed _ s => s

/-- Model of `init()` on a given filesystem state.  `mkdir` of the objects directory is
`recursive: true` (no effect on the model).  The HEAD file is created with
flag `wx`, which throws if it already exists; the throw is caught, and —
because both `writeFile` calls sit in one `try` block — the index-file write
is skipped as soon as the HEAD write throws. -/
def init (s : RepoState) : RepoState :=
  match s.head with
  | some _ => s
  | none =>
    { s with
      head := some ""
      index := match s.index with
        | none => some []
        | some idx => some idx }

/-- The repository produced by `init` in a directory with no `.coeus` state:
an empty objects directory, HEAD containing the empty string, and an index
file containing `JSON.stringify([])`. -/
def initialState : RepoState :=
  init { objects := [], head := none, index := none }

section Operations

variable (hashObject : String → String) (serializeCommit : CommitData → String)

/-- Model of `getCurrentHead()`: returns the HEAD file's content, or `null` when the
read throws (file absent). -/
def getCurrentHead (s : RepoState) : Option String :=
  s.head

/-- Model of `updateStagingArea(filePath, fileHash)`: read the index file, parse it,
push `{path, hash}`, write it back.  `none` when the read/parse throws. -/
def updateStagingArea (filePath fileHash : String) (s : RepoState) :
    Option RepoState :=
  match s.index with
  | none => none
  | some index =>
    some { s with index := some (index ++ [{ path := filePath, hash := fileHash }]) }

/-- Model of `add(fileToBeAdded)`.  The content of the working-directory file is an
input of the model (`none` = the initial `fs.readFile(fileToBeAdded)`
rejects, nothing below it runs).  On a readable file the object is written
first and the staging area updated second, exactly as in the source; if the
index file is unreadable, the object write has already happened when the
error propagates. -/
def add (fileToBeAdded : String) (content : Option String) (s : RepoState) :
    VcsResult :=
  match content with
  | none => .failed "FileNotFoundError" s
  | some fileData =>
    let fileHash := hashObject fileData
    let s1 := { s with objects := writeObject s.objects fileHash (.blob fileData) }
    match updateStagingArea fileToBeAdded fileHash s1 with
    | none => .failed "IndexCorruptError" s1
    | some s2 => .ok s2

/-- Model of `commit(message)`: read+parse the index, read HEAD, build the record,
hash its serialized form, write it to the objects directory, rewrite HEAD,
clear the index.  `timestamp` (the value of `new Date().toISOString()`) is an
input of the model. -/
def commit (message timestamp : String) (s : RepoState) : VcsResult :=
  match s.index with
  | none => .failed "IndexCorruptError" s
  | some index =>
    let parentCommit := getCurrentHead s
    let commitData : CommitData :=
      { timestamp := timestamp, message := message,
        files := index, parent := parentCommit }
    let commitHash := hashObject (serializeCommit commitData)
    .ok { s with
          objects := writeObject s.objects commitHash (.commitObj commitData),
          head := some commitHash,
          index := some [] }

/-- Model of `getFileContent(fileHash)`: the raw bytes of the object file — the file's
content for a blob, the serialized record for a commit object.  `none` when
the read rejects (no such object). -/
def getFileContent (s : RepoState) (fileHash : String) : Option String :=
  match readObject s.objects fileHash with
  | some (.blob content) => some content
  | some (.commitObj c) => some (serializeCommit c)
  | none => none

/-- Model of `getParentFileContent(parentCommitData, filePath)`: find the parent's
entry for `filePath`.  `some none` models the JavaScript `undefined` returned
when no entry matches; `some (some c)` a found entry whose blob reads back as
`c`; `none` a found entry whose object file is missing, so the inner
`getFileContent` rejects and the exception propagates to the caller. -/
def getParentFileContent (s : RepoState) (parentCommitData : CommitData)
    (filePath : String) : Option (Option String) :=
  match parentCommitData.files.find? (fun file => file.path = filePath) with
  | none => some none
  | some parentFile =>
    match getFileContent serializeCommit s parentFile.hash with
    | none => none
    | some content => some (some content)

end Operations

/-- One console line produced by `showCommitDiff` (color stripped). -/
inductive ShowEvent where
  /-- The line `Failed to read the commit data`, logged inside `getCommitData`. -/
  | readFailed
  /-- The line `Commit not found`. -/
  | commitNotFound
  /-- The header line `Changes in the last commit are:`. -/
  | header
  /-- The per-file line `File:` followed by the file's path. -/
  | fileHeader (path : String)
  /-- The dump of the file's full current content. -/
  | fileContent (content : String)
  /-- The `Diff:` header preceded by a blank line. -/
  | diffHeader
  /-- a green `"++" + part.value` chunk. -/
  | diffAdded (text : String)
  /-- a red `"--" + part.value` chunk. -/
  | diffRemoved (text : String)
  /-- a grey unchanged chunk. -/
  | diffUnchanged (text : String)
  /-- The line `New file in this commit`. -/
  | newFile
  /-- The line `First commit`. -/
  | firstCommit
deriving DecidableEq

/-- Classification of a diff segment: the `added`/`removed` flags of the
parts returned by the `diff` package's `diffLines`. -/
inductive DiffKind where
  | added
  | removed
  | unchanged
deriving DecidableEq

/-- A coalesced run of consecutive same-kind lines, with `text` the
concatenation of those lines (the part's `value`). -/
structure Segment where
  kind : DiffKind
  text : String
deriving DecidableEq

/-- Split a character list into lines, each line keeping its terminating
newline; a final unterminated chunk forms a last line of its own. -/
def splitLinesAux : List Char → List Char → List String
  | [], acc => match acc with
    | [] => []
    | _ => [String.mk acc.reverse]
  | c :: cs, acc =>
    if c = '\n' then
      String.mk (acc.reverse ++ ['\n']) :: splitLinesAux cs []
    else
      splitLinesAux cs (c :: acc)

/-- Modelled from the spec: line tokenization of the Diff Engine (§4.4) —
the `diffLines` line splitter of the external `diff` npm package, which is
imported by `src/Coeus.mjs` but whose source is not part of this repository.
Lines retain their newline terminators, so concatenating the lines restores
the input text. -/
def splitLines (s : String) : List String :=
  splitLinesAux s.data []

/-- One step of a line-level edit script. -/
inductive LineOp where
  | keep (line : String)
  | insert (line : String)
  | delete (line : String)
deriving DecidableEq

/-- Number of non-`keep` steps: the size of the edit script. -/
def opCost : List LineOp → Nat
  | [] => 0
  | .keep _ :: rest => opCost rest
  | .insert _ :: rest => opCost rest + 1
  | .delete _ :: rest => opCost rest + 1

/-- Modelled from the spec: the longest-common-subsequence line diff of the
Diff Engine (§4.4) — the edit-script computation of the external `diff` npm
package, which is not part of this repository.  Produces a minimal edit
script: equal heads are kept; otherwise the cheaper of delete-first and
insert-first is chosen. -/
def lcsDiff : List String → List String → List LineOp
  | [], ys => ys.map .insert
  | x :: xs, [] => (x :: xs).map .delete
  | x :: xs, y :: ys =>
    if x = y then
      .keep x :: lcsDiff xs ys
    else
      let d1 := .delete x :: lcsDiff xs (y :: ys)
      let d2 := .insert y :: lcsDiff (x :: xs) ys
      if opCost d2 < opCost d1 then d2 else d1
termination_by xs ys => xs.length + ys.length

/-- The kind of segment a line operation belongs to. -/
def LineOp.kind : LineOp → DiffKind
  | .keep _ => .unchanged
  | .insert _ => .added
  | .delete _ => .removed

/-- The line carried by a line operation. -/
def LineOp.text : LineOp → String
  | .keep l => l
  | .insert l => l
  | .delete l => l

/-- Modelled from the spec: coalescing of the Diff Engine (§4.4) — runs of
consecutive same-kind lines are merged into single segments (not one segment
per line), as the external `diff` npm package does. -/
def coalesce : List LineOp → List Segment
  | [] => []
  | op :: rest =>
    match coalesce rest with
    | [] => [{ kind := op.kind, text := op.text }]
    | seg :: segs =>
      if op.kind = seg.kind then
        { kind := seg.kind, text := op.text ++ seg.text } :: segs
      else
        { kind := op.kind, text := op.text } :: seg :: segs

/-- Modelled from the spec: `diffLines(oldText, newText)` of the Diff Engine
(§4.4) — the external `diff` npm package's line diff, not part of this
repository: split both inputs into lines, compute a minimal LCS-based edit
script, and coalesce runs of consecutive same-kind lines into segments. -/
def diffLines (oldText newText : String) : List Segment :=
  coalesce (lcsDiff (splitLines oldText) (splitLines newText))

/-- Console output of one `diff.forEach(part => ...)` loop: green
`"++" + value` for added parts, red `"--" + value` for removed parts, grey
`value` otherwise. -/
def renderDiff (segs : List Segment) : List ShowEvent :=
  segs.map fun seg =>
    match seg.kind with
    | .added => .diffAdded ("++" ++ seg.text)
    | .removed => .diffRemoved ("--" ++ seg.text)
    | .unchanged => .diffUnchanged seg.text

section Show

variable (serializeCommit : Coeus.CommitData → String)

/-- The body of `showCommitDiff`'s `for(const file of commitData.files)` loop
for one `file`.  `none` models an exception escaping the loop: a missing
object file under `file.hash`, a parent hash that does not resolve to a
serialized commit record (then `JSON.parse` yields `null` or garbage and
`parentCommitData.files` throws), or a parent entry whose blob is missing.
`if(commitData.parent)` is JavaScript truthiness, so a `null` parent and an
empty-string parent both take the `"First commit"` branch. -/
def showFile (s : RepoState) (commitData : CommitData) (file : FileEntry) :
    Option (List ShowEvent) :=
  match getFileContent serializeCommit s file.hash with
  | none => none
  | some fileContent =>
    let pre : List ShowEvent := [.fileHeader file.path, .fileContent fileContent]
    match commitData.parent with
    | none => some (pre ++ [.firstCommit])
    | some parentHash =>
      if parentHash = "" then
        some (pre ++ [.firstCommit])
      else
        match readObject s.objects parentHash with
        | some (.commitObj parentCommitData) =>
          match getParentFileContent serializeCommit s parentCommitData file.path with
          | some (some parentContent) =>
            some (pre ++ [.diffHeader] ++ renderDiff (diffLines parentContent fileContent))
          | some none => some (pre ++ [.newFile])
          | none => none
        | some (.blob _) => none
        | none => none

/-- The whole `for(const file of commitData.files)` loop: concatenation of
the per-file output, `none` as soon as one iteration throws. -/
def showFiles (s : RepoState) (commitData : CommitData) :
    List FileEntry → Option (List ShowEvent)
  | [] => some []
  | file :: rest =>
    match showFile serializeCommit s commitData file with
    | none => none
    | some evs =>
      match showFiles s commitData rest with
      | none => none
      | some more => some (evs ++ more)

/-- Model of `showCommitDiff(commitHash)`.  When the object file for `commitHash` is
missing, `getCommitData` catches the read error, logs
`"Failed to read the commit data"` and returns `null`; `JSON.parse(null)`
evaluates to `null`, so the `if(!commitData)` guard logs
`"Commit not found"` and returns.  The command only reads: the returned
state is the input state on every path. -/
def showCommitDiff (commitHash : String) (s : RepoState) :
    Option (List ShowEvent) × RepoState :=
  match readObject s.objects commitHash with
  | none => (some [.readFailed, .commitNotFound], s)
  | some (.blob _) => (none, s)
  | some (.commitObj commitData) =>
    match showFiles serializeCommit s commitData commitData.files with
    | none => (none, s)
    | some evs => (some (.header :: evs), s)

/-- Model of `log()`: start at `getCurrentHead()`, and `while(currentCommitHash)` is
truthy read the commit record at that hash, print it, move to its `parent`.
The result collects the `(hash, record)` pairs printed, newest first.
`fuel` bounds the number of iterations the model unfolds; `none` means the
loop either did not finish within `fuel` steps or threw (the record file is
missing — `fs.readFile` rejects with nothing catching it — or is not a
serialized commit record). -/
def logWalk (fuel : Nat) (currentCommitHash : Option String) (s : RepoState) :
    Option (List (String × CommitData)) :=
  match fuel with
  | 0 => none
  | fuel + 1 =>
    if jsTruthy currentCommitHash then
      match currentCommitHash with
      | none => none
      | some h =>
        match readObject s.objects h with
        | some (.commitObj commitData) =>
          match logWalk fuel commitData.parent s with
          | none => none
          | some rest => some ((h, commitData) :: rest)
        | some (.blob _) => none
        | none => none
    else
      some []

end Show

section Chain

variable (hashObject : String → String) (serializeCommit : CommitData → String)

/-- A sequence of `commit` invocations, each given as a
`(message, timestamp)` pair, run left to right.  A raised error aborts the
remaining invocations (the process exits), leaving the state at the throw. -/
def runCommits (cmds : List (String × String)) (s : RepoState) : RepoState :=
  match cmds with
  | [] => s
  | (message, timestamp) :: rest =>
    match commit hashObject serializeCommit message timestamp s with
    | .ok s1 => runCommits rest s1
    | .failed _ s1 => s1

/-- The record the `(i+1)`-st `commit` call of a run builds when started from
a freshly initialised repository: nothing is ever staged, so `files` is `[]`;
the first record's parent is the empty HEAD content `""`, and each later
record's parent is the previous record's hash. -/
def chainCommit (cmds : List (String × String)) : Nat → CommitData
  | 0 =>
    { timestamp := (cmds.getD 0 ("", "")).2, message := (cmds.getD 0 ("", "")).1,
      files := [], parent := some "" }
  | i + 1 =>
    { timestamp := (cmds.getD (i + 1) ("", "")).2,
      message := (cmds.getD (i + 1) ("", "")).1,
      files := [],
      parent := some (hashObject (serializeCommit (chainCommit cmds i))) }

/-- The hash under which the `(i+1)`-st commit of the run is stored. -/
def chainHash (cmds : List (String × String)) (i : Nat) : String :=
  hashObject (serializeCommit (chainCommit hashObject serializeCommit cmds i))

/-- The content of the HEAD file after `k` commits of the run: empty before
the first commit, the latest commit's hash afterwards. -/
def headAfter (cmds : List (String × String)) : Nat → String
  | 0 => ""
  | k + 1 => chainHash hashObject serializeCommit cmds k

/-- The `(hash, record)` pairs `log` prints when the chain has commits
`0, …, j`: newest first. -/
def visitList (cmds : List (String × String)) : Nat → List (String × CommitData)
  | 0 => [(chainHash hashObject serializeCommit cmds 0,
           chainCommit hashObject serializeCommit cmds 0)]
  | j + 1 => (chainHash hashObject serializeCommit cmds (j + 1),
              chainCommit hashObject serializeCommit cmds (j + 1))
      :: visitList cmds j

end Chain

/-! ### Concrete stand-ins for the digest and the serializer

The real program uses SHA-1 and `JSON.stringify`.  For concrete evaluations
(witnesses and counterexamples) we instantiate the two parameters with
simple computable functions that have the two properties the abstract
development assumes of the real pair: the composite `digest ∘ serialize` is
injective, and no digest is the empty string. -/

/-- Numeric code of a string: the code points of its characters. -/
def strCode (s : String) : List Nat :=
  s.data.map Char.toNat

/-- Numeric code of a staging entry. -/
def fileCode (f : FileEntry) : List Nat × List Nat :=
  (strCode f.path, strCode f.hash)

/-- Numeric code of a commit record, componentwise. -/
def commitCode (c : CommitData) :
    List Nat × (List Nat × (List (List Nat × List Nat) × Option (List Nat))) :=
  (strCode c.timestamp,
   (strCode c.message,
    (c.files.map fileCode, c.parent.map strCode)))

/-- A string of `n` letters `a`: an injective image of `Nat` in `String`. -/
def natStr (n : Nat) : String :=
  String.mk (List.replicate n 'a')

/-- A concrete injective serializer standing in for `JSON.stringify` on
commit records. -/
def sampleSerialize (c : CommitData) : String :=
  natStr (Encodable.encode (commitCode c))

/-- A concrete stand-in for the SHA-1 hex digest: prefix with `#`, so that
the digest is injective and never empty. -/
def sampleHash (s : String) : String :=
  "#" ++ s

lemma strCode_injective : Function.Injective strCode := by
  intro s t h
  have hd : s.data = t.data := by
    refine List.map_injective_iff.mpr ?_ h
    intro a b hab
    exact Char.ext (UInt32.ext hab)
  cases s; cases t
  exact congrArg String.mk hd

lemma fileCode_injective : Function.Injective fileCode := by
  intro f g h
  cases f; cases g
  simp only [fileCode, Prod.mk.injEq] at h
  simp [strCode_injective h.1, strCode_injective h.2]

lemma commitCode_injective : Function.Injective commitCode := by
  intro c d h
  cases c; cases d
  simp only [commitCode, Prod.mk.injEq] at h
  obtain ⟨h1, h2, h3, h4⟩ := h
  have hf : _ = _ := List.map_injective_iff.mpr fileCode_injective h3
  have hp : _ = _ := Option.map_injective strCode_injective h4
  simp [strCode_injective h1, strCode_injective h2, hf, hp]

lemma natStr_injective : Function.Injective natStr := by
  intro n m h
  have : (List.replicate n 'a').length = (List.replicate m 'a').length := by
    have hd : List.replicate n 'a' = List.replicate m 'a' := by
      injection h
    rw [hd]
  simpa using this

lemma sampleSerialize_injective : Function.Injective sampleSerialize := by
  intro c d h
  exact commitCode_injective (Encodable.encode_injective (natStr_injective h))

lemma sampleHash_injective : Function.Injective sampleHash := by
  intro s t h
  simp only [sampleHash] at h
  have hd : ("#" ++ s).data = ("#" ++ t).data := by rw [h]
  simp only [String.data_append] at hd
  have := List.append_cancel_left hd
  cases s; cases t
  exact congrArg String.mk this

lemma sampleHash_ne_empty (s : String) : sampleHash s ≠ "" := by
  intro h
  simp only [sampleHash] at h
  have : ("#" ++ s).length = ("" : String).length := by rw [h]
  simp only [String.length_append] at this
  have h1 : ("#" : String).length = 1 := by decide
  have h2 : ("" : String).length = 0 := by decide
  omega

lemma sampleHashSerialize_injective :
    Function.Injective (fun c => sampleHash (sampleSerialize c)) := by
  intro c d h
  exact sampleSerialize_injective (sampleHash_injective h)

/-! ### Object-store lemmas -/

lemma readObject_writeObject_self (objects : List (String × StoredObj))
    (key : String) (v : StoredObj) :
    readObject (writeObject objects key v) key = some v := by
  simp [readObject, writeObject, List.find?_cons_of_pos _ (by simp : decide ((key, v).1 = key) = true)]

lemma find?_filter_of_imp {α : Type} (p q : α → Bool) (l : List α)
    (h : ∀ e, p e = true → q e = true) :
    (l.filter q).find? p = l.find? p := by
  induction l with
  | nil => rfl
  | cons e rest ih =>
    by_cases hq : q e = true
    · rw [List.filter_cons_of_pos hq]
      by_cases hp : p e = true
      · rw [List.find?_cons_of_pos _ hp, List.find?_cons_of_pos _ hp]
      · rw [List.find?_cons_of_neg _ (by simpa using hp),
            List.find?_cons_of_neg _ (by simpa using hp)]
        exact ih
    · rw [List.filter_cons_of_neg (by simpa using hq)]
      have hp : ¬ p e = true := fun hpe => hq (h e hpe)
      rw [List.find?_cons_of_neg _ (by simpa using hp)]
      exact ih

lemma readObject_writeObject_ne (objects : List (String × StoredObj))
    (key key2 : String) (v : StoredObj) (h : key2 ≠ key) :
    readObject (writeObject objects key v) key2 = readObject objects key2 := by
  simp only [readObject, writeObject]
  rw [List.find?_cons_of_neg _ (by simp only [decide_eq_true_eq]; exact fun hk => h hk.symm)]
  rw [find?_filter_of_imp]
  intro e he
  simp only [decide_eq_true_eq] at he ⊢
  rw [he]
  exact h

/-- Whatever happens to the staging area, `add` on a readable file has
written the blob under its content hash by the time it returns or throws. -/
lemma add_state_objects (hashObject : String → String) (filePath b : String)
    (s : RepoState) :
    (add hashObject filePath (some b) s).state.objects
      = writeObject s.objects (hashObject b) (.blob b) := by
  simp only [add, updateStagingArea]
  cases s.index <;> rfl

/-- Running `add` on a readable file with a readable index appends one entry. -/
lemma add_ok (hashObject : String → String) (filePath b : String)
    (s : RepoState) (idx : List FileEntry) (hidx : s.index = some idx) :
    add hashObject filePath (some b) s
      = .ok { s with
              objects := writeObject s.objects (hashObject b) (.blob b),
              index := some (idx ++ [{ path := filePath, hash := hashObject b }]) } := by
  simp [add, updateStagingArea, hidx]

end Coeus

namespace Coeus

/-- C1: for every byte sequence `b`, `hashObject(b)` is the same digest on
every call (it is a function of the content alone), and reading the object
that `add` stored under that digest — `getFileContent` after the
`fs.writeFile` in `add` — returns exactly `b`, from any prior repository
state and whatever the staged path. -/
theorem C1_content_addressing (hashObject : String → String)
    (serializeCommit : CommitData → String) (b filePath : String) (s : RepoState) :
    hashObject b = hashObject b ∧
    getFileContent serializeCommit (add hashObject filePath (some b) s).state
        (hashObject b) = some b := by
  refine ⟨rfl, ?_⟩
  rw [getFileContent, add_state_objects, readObject_writeObject_self]

/-- C9: `add` on a path whose read rejects raises `FileNotFoundError` with
the persisted state — object store and staging index — exactly as it was:
the failing `fs.readFile` is the first statement of `add`. -/
theorem C9_add_missing_file (hashObject : String → String) (filePath : String)
    (s : RepoState) :
    add hashObject filePath none s = .failed "FileNotFoundError" s ∧
    (add hashObject filePath none s).state.objects = s.objects ∧
    (add hashObject filePath none s).state.index = s.index :=
  ⟨rfl, rfl, rfl⟩

/-- C4, counterexample: in the pre-first-commit state left by `init` the HEAD
file exists and is empty, and `getCurrentHead` returns the empty string — not
`null` as the claim states.  (`fs.readFile` succeeds on an empty file; the
`catch` branch returning `null` only runs when the file is absent.) -/
theorem C4_counterexample :
    initialState.head = some "" ∧
    getCurrentHead initialState = some "" ∧
    getCurrentHead initialState ≠ none := by
  refine ⟨rfl, rfl, ?_⟩
  intro h
  exact Option.noConfusion h

/-- C4, amended: `getCurrentHead` returns `null` when the HEAD file is absent
and the file's content otherwise; on the empty pre-first-commit HEAD file that
content is the empty string — a falsy value treated like `null` by every
caller — not `null` itself.  It never fails merely because no commit exists
yet. -/
theorem C4_amended (s : RepoState) :
    (s.head = none → getCurrentHead s = none) ∧
    (∀ c, s.head = some c → getCurrentHead s = some c) ∧
    (s.head = some "" → jsTruthy (getCurrentHead s) = false) := by
  refine ⟨fun h => h, fun c h => h, fun h => ?_⟩
  simp [getCurrentHead, h, jsTruthy]

/-- Witness for the amended C4, on the freshly initialised repository. -/
theorem C4_amended_witness :
    getCurrentHead initialState = some "" ∧
    jsTruthy (getCurrentHead initialState) = false :=
  ⟨(C4_amended initialState).2.1 "" rfl, (C4_amended initialState).2.2 rfl⟩

/-- C5: `show` on a hash with no object in the store logs the read failure
and `Commit not found`, produces no per-file output, returns normally
(`some`, not a crash), and leaves the persisted state exactly as it was. -/
theorem C5_show_missing_commit (serializeCommit : CommitData → String)
    (commitHash : String) (s : RepoState)
    (habs : readObject s.objects commitHash = none) :
    showCommitDiff serializeCommit commitHash s
      = (some [.readFailed, .commitNotFound], s) := by
  simp [showCommitDiff, habs]

/-- Witness for C5: a fresh repository holds no object at all. -/
theorem C5_witness :
    readObject initialState.objects "0000" = none ∧
    showCommitDiff (fun c => c.message) "0000" initialState
      = (some [.readFailed, .commitNotFound], initialState) :=
  ⟨rfl, C5_show_missing_commit (fun c => c.message) "0000" initialState rfl⟩

/-- C6: adding the same content twice (same or different path) leaves the
object store exactly as after the first add — the second write is a no-op in
effect — with exactly one object file under the content's hash, and that
entry reads back as the content, so both staged `FileEntry` records (which
carry the same hash `hashObject b`) resolve to identical content. -/
theorem C6_dedup (hashObject : String → String)
    (serializeCommit : CommitData → String) (b p1 p2 : String) (s : RepoState) :
    (add hashObject p2 (some b) (add hashObject p1 (some b) s).state).state.objects
      = (add hashObject p1 (some b) s).state.objects ∧
    ((add hashObject p2 (some b) (add hashObject p1 (some b) s).state).state.objects.filter
        (fun e => e.1 = hashObject b)).length = 1 ∧
    getFileContent serializeCommit
        (add hashObject p2 (some b) (add hashObject p1 (some b) s).state).state
        (hashObject b) = some b := by
  have hobj2 : (add hashObject p2 (some b)
        (add hashObject p1 (some b) s).state).state.objects
      = writeObject (writeObject s.objects (hashObject b) (.blob b))
          (hashObject b) (.blob b) := by
    rw [add_state_objects, add_state_objects]
  have hww : writeObject (writeObject s.objects (hashObject b) (.blob b))
        (hashObject b) (.blob b)
      = writeObject s.objects (hashObject b) (.blob b) := by
    simp only [writeObject]
    rw [List.filter_cons_of_neg (by simp), List.filter_filter]
    congr 1
    apply List.filter_congr
    intro e _
    simp [Bool.and_self]
  have hcount : ∀ l : List (String × StoredObj),
      List.filter (fun e => decide (e.1 = hashObject b) && decide ¬(e.1 = hashObject b)) l
        = [] := by
    intro l
    apply List.filter_eq_nil_iff.mpr
    intro e _
    simp
  refine ⟨by rw [hobj2, hww, add_state_objects], ?_, ?_⟩
  · rw [hobj2, hww]
    simp only [writeObject]
    rw [List.filter_cons_of_pos (by simp), List.filter_filter, hcount]
    rfl
  · rw [getFileContent, hobj2, hww, readObject_writeObject_self]

/-- C10: `commit` has no precondition that anything was staged: with an empty
staging index it succeeds, stores a commit record whose `files` sequence is
empty, and rewrites HEAD to that record's hash. -/
theorem C10_commit_empty_staging (hashObject : String → String)
    (serializeCommit : CommitData → String) (message timestamp : String)
    (s : RepoState) (hidx : s.index = some []) :
    ∃ cd : CommitData,
      cd = { timestamp := timestamp, message := message, files := [],
             parent := getCurrentHead s } ∧
      cd.files = [] ∧
      commit hashObject serializeCommit message timestamp s
        = .ok { s with
                objects := writeObject s.objects
                  (hashObject (serializeCommit cd)) (.commitObj cd),
                head := some (hashObject (serializeCommit cd)),
                index := some [] } ∧
      readObject (commit hashObject serializeCommit message timestamp s).state.objects
          (hashObject (serializeCommit cd)) = some (.commitObj cd) ∧
      (commit hashObject serializeCommit message timestamp s).state.head
        = some (hashObject (serializeCommit cd)) := by
  refine ⟨_, rfl, rfl, ?_, ?_, ?_⟩
  · simp [commit, hidx]
  · simp only [commit, hidx, VcsResult.state]
    exact readObject_writeObject_self ..
  · simp [commit, hidx, VcsResult.state]

/-- Witness for C10 on a freshly initialised repository. -/
theorem C10_witness :
    initialState.index = some [] ∧
    (∃ cd : CommitData,
      cd = { timestamp := "t", message := "m", files := [],
             parent := getCurrentHead initialState } ∧
      cd.files = [] ∧
      commit sampleHash sampleSerialize "m" "t" initialState
        = .ok { initialState with
                objects := writeObject initialState.objects
                  (sampleHash (sampleSerialize cd)) (.commitObj cd),
                head := some (sampleHash (sampleSerialize cd)),
                index := some [] } ∧
      readObject (commit sampleHash sampleSerialize "m" "t" initialState).state.objects
          (sampleHash (sampleSerialize cd)) = some (.commitObj cd) ∧
      (commit sampleHash sampleSerialize "m" "t" initialState).state.head
        = some (sampleHash (sampleSerialize cd))) :=
  ⟨rfl, C10_commit_empty_staging sampleHash sampleSerialize "m" "t" initialState rfl⟩

/-- C2: from any readable staging-index state, `add(f1); add(f2); commit(m)`
leaves the staging index empty, and the created commit's `files` sequence
ends with the entry for `f1` followed by the entry for `f2`, each paired with
the hash of its content at `add` time; the commit is stored under its hash
and HEAD points at it. -/
theorem C2_staging_roundtrip (hashObject : String → String)
    (serializeCommit : CommitData → String)
    (f1 c1 f2 c2 message timestamp : String) (s : RepoState)
    (l0 : List FileEntry) (hidx : s.index = some l0) :
    ∃ (s1 s2 s3 : RepoState) (cd : CommitData),
      add hashObject f1 (some c1) s = .ok s1 ∧
      add hashObject f2 (some c2) s1 = .ok s2 ∧
      commit hashObject serializeCommit message timestamp s2 = .ok s3 ∧
      s3.index = some [] ∧
      cd.files = l0 ++ [{ path := f1, hash := hashObject c1 },
                        { path := f2, hash := hashObject c2 }] ∧
      cd.message = message ∧
      s3.head = some (hashObject (serializeCommit cd)) ∧
      readObject s3.objects (hashObject (serializeCommit cd))
        = some (.commitObj cd) := by
  set e1 : FileEntry := { path := f1, hash := hashObject c1 }
  set e2 : FileEntry := { path := f2, hash := hashObject c2 }
  set s1 : RepoState :=
    { s with objects := writeObject s.objects (hashObject c1) (.blob c1),
             index := some (l0 ++ [e1]) }
  set s2 : RepoState :=
    { s1 with objects := writeObject s1.objects (hashObject c2) (.blob c2),
              index := some ((l0 ++ [e1]) ++ [e2]) }
  set cd : CommitData :=
    { timestamp := timestamp, message := message,
      files := (l0 ++ [e1]) ++ [e2], parent := getCurrentHead s2 }
  refine ⟨s1, s2,
    { s2 with objects := writeObject s2.objects
                (hashObject (serializeCommit cd)) (.commitObj cd),
              head := some (hashObject (serializeCommit cd)),
              index := some [] }, cd,
    add_ok hashObject f1 c1 s l0 hidx, ?_, rfl, rfl, ?_, rfl, rfl, ?_⟩
  · exact add_ok hashObject f2 c2 s1 (l0 ++ [e1]) rfl
  · simp [cd, List.append_assoc]
  · exact readObject_writeObject_self ..

/-- Witness for C2 on a freshly initialised repository. -/
theorem C2_witness :
    initialState.index = some [] ∧
    (∃ (s1 s2 s3 : RepoState) (cd : CommitData),
      add sampleHash "a.txt" (some "hello") initialState = .ok s1 ∧
      add sampleHash "b.txt" (some "world") s1 = .ok s2 ∧
      commit sampleHash sampleSerialize "m" "t" s2 = .ok s3 ∧
      s3.index = some [] ∧
      cd.files = [] ++ [{ path := "a.txt", hash := sampleHash "hello" },
                        { path := "b.txt", hash := sampleHash "world" }] ∧
      cd.message = "m" ∧
      s3.head = some (sampleHash (sampleSerialize cd)) ∧
      readObject s3.objects (sampleHash (sampleSerialize cd))
        = some (.commitObj cd)) :=
  ⟨rfl, C2_staging_roundtrip sampleHash sampleSerialize
    "a.txt" "hello" "b.txt" "world" "m" "t" initialState [] rfl⟩

/-- C7: (1) when `show` processes a `FileEntry` of a commit with a truthy
parent and the entry's path has no match in the parent commit's `files`
sequence, the per-file output is exactly the file header, the file's content,
and the `New file in this commit` marker — no diff is computed or emitted;
(2) when the commit's `parent` is not truthy (`null`, or the empty string the
root commit stores), every file gets the `First commit` marker and no diff is
attempted. -/
theorem C7_new_file_and_first_commit (serializeCommit : CommitData → String) :
    (∀ (s : RepoState) (commitData parentCommitData : CommitData)
       (file : FileEntry) (parentHash fileContent : String),
       commitData.parent = some parentHash →
       parentHash ≠ "" →
       readObject s.objects parentHash = some (.commitObj parentCommitData) →
       getFileContent serializeCommit s file.hash = some fileContent →
       parentCommitData.files.find? (fun f => f.path = file.path) = none →
       showFile serializeCommit s commitData file
         = some [.fileHeader file.path, .fileContent fileContent, .newFile]) ∧
    (∀ (s : RepoState) (commitData : CommitData) (file : FileEntry)
       (fileContent : String),
       jsTruthy commitData.parent = false →
       getFileContent serializeCommit s file.hash = some fileContent →
       showFile serializeCommit s commitData file
         = some [.fileHeader file.path, .fileContent fileContent, .firstCommit]) := by
  constructor
  · intro s commitData parentCommitData file parentHash fileContent
      hpar hne hparobj hcontent hfind
    simp [showFile, hcontent, hpar, hne, hparobj, getParentFileContent, hfind]
  · intro s commitData file fileContent htruthy hcontent
    match hpar : commitData.parent with
    | none => simp [showFile, hcontent, hpar]
    | some p =>
      have hp : p = "" := by
        rw [hpar] at htruthy
        simpa [jsTruthy] using htruthy
      simp [showFile, hcontent, hpar, hp]

/-- The parent commit record of the C7 witness: tracks only `other.txt`. -/
def c7Parent : CommitData :=
  { timestamp := "t0", message := "m0",
    files := [{ path := "other.txt", hash := "#x" }], parent := some "" }

/-- The child commit record of the C7 witness: tracks `a.txt`, parent `#p`. -/
def c7Child : CommitData :=
  { timestamp := "t1", message := "m1",
    files := [{ path := "a.txt", hash := "#c" }], parent := some "#p" }

/-- A root commit record (parent is the empty HEAD content). -/
def c7Root : CommitData :=
  { timestamp := "t1", message := "m1",
    files := [{ path := "a.txt", hash := "#c" }], parent := some "" }

/-- The store of the C7 witness: the parent commit and the blob of `a.txt`. -/
def c7State : RepoState :=
  { objects := [("#p", .commitObj c7Parent), ("#c", .blob "body")],
    head := some "#h", index := some [] }

/-- Witness for C7: a two-commit store where `a.txt` is new in the child
commit, and a root commit (parent `""`) showing `First commit`. -/
theorem C7_witness :
    (showFile (fun c => c.message) c7State c7Child { path := "a.txt", hash := "#c" }
      = some [.fileHeader "a.txt", .fileContent "body", .newFile]) ∧
    (showFile (fun c => c.message) c7State c7Root { path := "a.txt", hash := "#c" }
      = some [.fileHeader "a.txt", .fileContent "body", .firstCommit]) :=
  ⟨(C7_new_file_and_first_commit (fun c => c.message)).1 c7State c7Child c7Parent
      { path := "a.txt", hash := "#c" } "#p" "body"
      rfl (by decide) (by decide) (by decide) (by decide),
   (C7_new_file_and_first_commit (fun c => c.message)).2 c7State c7Root
      { path := "a.txt", hash := "#c" } "body" (by decide) (by decide)⟩

/-- Diffing a line list against itself keeps every line. -/
lemma lcsDiff_self (l : List String) : lcsDiff l l = l.map .keep := by
  induction l with
  | nil => simp [lcsDiff]
  | cons a l ih => simp [lcsDiff, ih]

/-- Coalescing an all-`keep` script yields one `unchanged` segment whose text
is the concatenation of the lines. -/
lemma coalesce_keeps (a : String) (l : List String) :
    coalesce ((a :: l).map .keep)
      = [{ kind := .unchanged, text := (a :: l).foldr (· ++ ·) "" }] := by
  induction l generalizing a with
  | nil => simp [coalesce, LineOp.kind, LineOp.text, String.append_empty]
  | cons b l ih =>
    show coalesce (.keep a :: (b :: l).map .keep) = _
    rw [coalesce, ih b]
    simp [LineOp.kind, LineOp.text]

/-- Concatenating the lines produced by the splitter restores the input
characters (the accumulator holds the reversed prefix of the current line). -/
lemma foldr_splitLinesAux (l acc : List Char) :
    (splitLinesAux l acc).foldr (· ++ ·) "" = String.mk (acc.reverse ++ l) := by
  induction l generalizing acc with
  | nil =>
    cases acc with
    | nil => rfl
    | cons x xs =>
      show (splitLinesAux [] (x :: xs)).foldr (· ++ ·) "" = _
      rw [splitLinesAux]
      simp [String.append_empty]
      exact fun h => List.noConfusion h
  | cons c cs ih =>
    rw [splitLinesAux]
    by_cases hc : c = '\n'
    · rw [if_pos hc, hc]
      show String.mk (acc.reverse ++ ['\n']) ++ (splitLinesAux cs []).foldr (· ++ ·) "" = _
      rw [ih []]
      show String.mk ((acc.reverse ++ ['\n']) ++ ([].reverse ++ cs)) = _
      simp
    · rw [if_neg hc, ih (c :: acc)]
      simp

/-- The splitter returns no lines only on empty input. -/
lemma splitLinesAux_eq_nil (l acc : List Char) (h : splitLinesAux l acc = []) :
    l = [] := by
  induction l generalizing acc with
  | nil => rfl
  | cons c cs ih =>
    rw [splitLinesAux] at h
    by_cases hc : c = '\n'
    · rw [if_pos hc] at h
      exact absurd h (List.cons_ne_nil _ _)
    · rw [if_neg hc] at h
      have hcs : cs = [] := ih (c :: acc) h
      subst hcs
      simp [splitLinesAux] at h

/-- C8: for every non-empty text `x`, `diffLines(x, x)` yields exactly one
segment, classified `unchanged`, whose text is all of `x`. -/
theorem C8_diff_idempotence (x : String) (hx : x ≠ "") :
    diffLines x x = [{ kind := .unchanged, text := x }] := by
  obtain ⟨a, l, hsplit⟩ : ∃ a l, splitLines x = a :: l := by
    cases h : splitLines x with
    | nil =>
      have hd : x.data = [] := splitLinesAux_eq_nil x.data [] h
      refine absurd ?_ hx
      cases x with
      | mk d =>
        have hd2 : d = [] := hd
        subst hd2
        rfl
    | cons a l => exact ⟨a, l, rfl⟩
  rw [diffLines, hsplit, lcsDiff_self, coalesce_keeps, ← hsplit]
  have : (splitLines x).foldr (· ++ ·) "" = x := by
    rw [splitLines, foldr_splitLinesAux]
    show String.mk ([] ++ x.data) = x
    simp
  rw [this]

/-- Witness for C8 on a concrete two-line text. -/
theorem C8_witness :
    ("hello\nworld\n" : String) ≠ "" ∧
    diffLines "hello\nworld\n" "hello\nworld\n"
      = [{ kind := .unchanged, text := "hello\nworld\n" }] :=
  ⟨by decide, C8_diff_idempotence "hello\nworld\n" (by decide)⟩

section ChainProofs

variable (hashObject : String → String) (serializeCommit : CommitData → String)

/-- Distinct positions in a commit run have distinct hashes: equal hashes
force equal records (no digest collision), equal records force equal parent
hashes, and the empty root parent differs from every digest. -/
lemma chainHash_inj
    (hinj : Function.Injective fun c => hashObject (serializeCommit c))
    (hnz : ∀ str, hashObject str ≠ "")
    (cmds : List (String × String)) :
    ∀ i j, chainHash hashObject serializeCommit cmds i
        = chainHash hashObject serializeCommit cmds j → i = j := by
  intro i
  induction i with
  | zero =>
    intro j h
    cases j with
    | zero => rfl
    | succ j =>
      have hc : chainCommit hashObject serializeCommit cmds 0
          = chainCommit hashObject serializeCommit cmds (j + 1) := hinj h
      have hp := congrArg CommitData.parent hc
      simp only [chainCommit] at hp
      exact absurd (Option.some.inj hp).symm (hnz _)
  | succ i ih =>
    intro j h
    cases j with
    | zero =>
      have hc : chainCommit hashObject serializeCommit cmds (i + 1)
          = chainCommit hashObject serializeCommit cmds 0 := hinj h
      have hp := congrArg CommitData.parent hc
      simp only [chainCommit] at hp
      exact absurd (Option.some.inj hp) (hnz _)
    | succ j =>
      have hc : chainCommit hashObject serializeCommit cmds (i + 1)
          = chainCommit hashObject serializeCommit cmds (j + 1) := hinj h
      have hp := congrArg CommitData.parent hc
      simp only [chainCommit] at hp
      exact congrArg Nat.succ (ih j (Option.some.inj hp))

/-- A failed `commit` reports an unreadable index and leaves the state as it
was. -/
lemma commit_failed (message timestamp : String) (s : RepoState)
    (e : String) (s1 : RepoState)
    (h : commit hashObject serializeCommit message timestamp s = .failed e s1) :
    s1 = s ∧ s.index = none := by
  cases hidx : s.index with
  | none =>
    simp only [commit, hidx] at h
    exact ⟨(VcsResult.failed.inj h).2.symm, rfl⟩
  | some idx =>
    simp only [commit, hidx] at h
    exact absurd h (by simp)

/-- Running `commit` on a readable index succeeds with the record built from the
index and the current HEAD. -/
lemma commit_ok (message timestamp : String) (s : RepoState)
    (idx : List FileEntry) (hidx : s.index = some idx) :
    commit hashObject serializeCommit message timestamp s
      = .ok { s with
              objects := writeObject s.objects
                (hashObject (serializeCommit
                  { timestamp := timestamp, message := message,
                    files := idx, parent := s.head }))
                (.commitObj { timestamp := timestamp, message := message,
                              files := idx, parent := s.head }),
              head := some (hashObject (serializeCommit
                { timestamp := timestamp, message := message,
                  files := idx, parent := s.head })),
              index := some [] } := by
  simp [commit, hidx, getCurrentHead]

/-- Appending one more `commit` call to a run is one more `commit` step:
a run that has already failed has an unreadable index, so the extra call
fails too and changes nothing. -/
lemma runCommits_snoc (l : List (String × String)) (x : String × String)
    (s : RepoState) :
    runCommits hashObject serializeCommit (l ++ [x]) s
      = (commit hashObject serializeCommit x.1 x.2
          (runCommits hashObject serializeCommit l s)).state := by
  induction l generalizing s with
  | nil =>
    show (match commit hashObject serializeCommit x.1 x.2 s with
          | .ok s1 => runCommits hashObject serializeCommit [] s1
          | .failed _ s1 => s1)
      = (commit hashObject serializeCommit x.1 x.2 s).state
    cases commit hashObject serializeCommit x.1 x.2 s <;> rfl
  | cons y l ih =>
    show (match commit hashObject serializeCommit y.1 y.2 s with
          | .ok s1 => runCommits hashObject serializeCommit (l ++ [x]) s1
          | .failed _ s1 => s1)
      = (commit hashObject serializeCommit x.1 x.2
          (match commit hashObject serializeCommit y.1 y.2 s with
           | .ok s1 => runCommits hashObject serializeCommit l s1
           | .failed _ s1 => s1)).state
    cases hy : commit hashObject serializeCommit y.1 y.2 s with
    | ok s1 => exact ih s1
    | failed e s1 =>
      obtain ⟨rfl, hidx⟩ := commit_failed hashObject serializeCommit y.1 y.2 s e s1 hy
      simp only [commit, hidx]
      rfl

/-- The record of position `k`, written with its parent through `headAfter`:
the two cases of `chainCommit` collapse to one shape. -/
lemma chainCommit_eq (cmds : List (String × String)) (k : Nat) :
    chainCommit hashObject serializeCommit cmds k
      = { timestamp := (cmds.getD k ("", "")).2,
          message := (cmds.getD k ("", "")).1,
          files := [],
          parent := some (headAfter hashObject serializeCommit cmds k) } := by
  cases k with
  | zero => rfl
  | succ j => rfl

/-- Invariant of a commit run from a fresh repository: after the first `k`
calls the staging index is empty, HEAD holds the hash of the latest chain
record, and every record written so far is readable under its hash. -/
lemma runCommits_inv
    (hinj : Function.Injective fun c => hashObject (serializeCommit c))
    (hnz : ∀ str, hashObject str ≠ "")
    (cmds : List (String × String)) :
    ∀ k, k ≤ cmds.length →
      (runCommits hashObject serializeCommit (cmds.take k) initialState).index
          = some [] ∧
      (runCommits hashObject serializeCommit (cmds.take k) initialState).head
          = some (headAfter hashObject serializeCommit cmds k) ∧
      ∀ i, i < k →
        readObject
            (runCommits hashObject serializeCommit (cmds.take k) initialState).objects
            (chainHash hashObject serializeCommit cmds i)
          = some (.commitObj (chainCommit hashObject serializeCommit cmds i)) := by
  intro k
  induction k with
  | zero =>
    intro _
    exact ⟨rfl, rfl, fun i hi => absurd hi (Nat.not_lt_zero i)⟩
  | succ k ih =>
    intro hk
    have hklt : k < cmds.length := hk
    obtain ⟨ih1, ih2, ih3⟩ := ih (Nat.le_of_lt hklt)
    have htake : cmds.take (k + 1) = cmds.take k ++ [cmds.get ⟨k, hklt⟩] := by
      rw [show cmds.get ⟨k, hklt⟩ = cmds[k] from rfl]
      exact (List.take_concat_get' cmds k hklt).symm
    rw [htake, runCommits_snoc,
        commit_ok hashObject serializeCommit _ _ _ []  ih1]
    have hcd : ({ timestamp := (cmds.get ⟨k, hklt⟩).2,
                  message := (cmds.get ⟨k, hklt⟩).1,
                  files := [],
                  parent := (runCommits hashObject serializeCommit
                    (cmds.take k) initialState).head } : CommitData)
        = chainCommit hashObject serializeCommit cmds k := by
      rw [chainCommit_eq, ih2, List.getD_eq_getElem cmds ("", "") hklt]
      rfl
    rw [hcd]
    refine ⟨rfl, rfl, ?_⟩
    intro i hi
    rcases Nat.lt_succ_iff_lt_or_eq.mp hi with hilt | hieq
    · show readObject (writeObject _ _ _) _ = _
      rw [readObject_writeObject_ne]
      · exact ih3 i hilt
      · intro heq
        exact absurd (chainHash_inj hashObject serializeCommit hinj hnz cmds i k heq)
          (Nat.ne_of_lt hilt)
    · subst hieq
      exact readObject_writeObject_self ..

/-- A non-empty digest is truthy. -/
lemma jsTruthy_some_of_ne {s : String} (h : s ≠ "") :
    jsTruthy (some s) = true := by
  simp [jsTruthy, h]

/-- No chain hash is the empty string (a digest is never empty). -/
lemma chainHash_ne_empty (hnz : ∀ str, hashObject str ≠ "")
    (cmds : List (String × String)) (i : Nat) :
    chainHash hashObject serializeCommit cmds i ≠ "" :=
  hnz _

/-- After a full commit run, walking `fuel = j + 2` steps from the hash at
chain position `j` prints exactly the records of positions `j, …, 0`. -/
lemma logWalk_visits
    (hinj : Function.Injective fun c => hashObject (serializeCommit c))
    (hnz : ∀ str, hashObject str ≠ "")
    (cmds : List (String × String)) :
    ∀ j, j < cmds.length →
      logWalk (j + 2) (some (chainHash hashObject serializeCommit cmds j))
          (runCommits hashObject serializeCommit cmds initialState)
        = some (visitList hashObject serializeCommit cmds j) := by
  have hinv := runCommits_inv hashObject serializeCommit hinj hnz cmds
    cmds.length (Nat.le_refl _)
  rw [List.take_length] at hinv
  obtain ⟨-, -, hread⟩ := hinv
  intro j
  induction j with
  | zero =>
    intro hj
    rw [show (0 + 2 : Nat) = 1 + 1 from rfl, logWalk]
    rw [if_pos (jsTruthy_some_of_ne
      (chainHash_ne_empty hashObject serializeCommit hnz cmds 0))]
    rw [hread 0 hj]
    rfl
  | succ j ihj =>
    intro hj
    have hjlt : j < cmds.length := Nat.lt_of_succ_lt hj
    rw [show (j + 1 + 2 : Nat) = (j + 2) + 1 from rfl, logWalk]
    rw [if_pos (jsTruthy_some_of_ne
      (chainHash_ne_empty hashObject serializeCommit hnz cmds (j + 1)))]
    rw [hread (j + 1) hj]
    show (match logWalk (j + 2) (some (chainHash hashObject serializeCommit cmds j))
            (runCommits hashObject serializeCommit cmds initialState) with
          | none => none
          | some rest => some ((chainHash hashObject serializeCommit cmds (j + 1),
              chainCommit hashObject serializeCommit cmds (j + 1)) :: rest))
        = some (visitList hashObject serializeCommit cmds (j + 1))
    rw [ihj hjlt]
    rfl

/-- The walk list for positions `0, …, j` has `j + 1` entries. -/
lemma visitList_length (cmds : List (String × String)) :
    ∀ j, (visitList hashObject serializeCommit cmds j).length = j + 1 := by
  intro j
  induction j with
  | zero => rfl
  | succ j ih => simp [visitList, ih]

/-- Every chain position up to `j` appears in the walk list. -/
lemma mem_visitList (cmds : List (String × String)) :
    ∀ j i, i ≤ j →
      (chainHash hashObject serializeCommit cmds i,
       chainCommit hashObject serializeCommit cmds i)
        ∈ visitList hashObject serializeCommit cmds j := by
  intro j
  induction j with
  | zero =>
    intro i hi
    rw [Nat.le_zero.mp hi]
    exact List.mem_singleton.mpr rfl
  | succ j ih =>
    intro i hi
    by_cases heq : i = j + 1
    · subst heq
      exact List.mem_cons_self _ _
    · have hij : i ≤ j := by omega
      exact List.mem_cons_of_mem _ (ih i hij)

/-- Conversely, every entry of the walk list is a chain position up to `j`. -/
lemma visitList_mem_ex (cmds : List (String × String)) :
    ∀ j p, p ∈ visitList hashObject serializeCommit cmds j →
      ∃ i, i ≤ j ∧ p = (chainHash hashObject serializeCommit cmds i,
                        chainCommit hashObject serializeCommit cmds i) := by
  intro j
  induction j with
  | zero =>
    intro p hp
    exact ⟨0, Nat.le_refl 0, List.mem_singleton.mp hp⟩
  | succ j ih =>
    intro p hp
    rcases List.mem_cons.mp hp with hp | hp
    · exact ⟨j + 1, Nat.le_refl _, hp⟩
    · obtain ⟨i, hi, hpi⟩ := ih p hp
      exact ⟨i, Nat.le_succ_of_le hi, hpi⟩

/-- The hashes in the walk list are pairwise distinct: no commit is visited
twice. -/
lemma visitList_nodup
    (hinj : Function.Injective fun c => hashObject (serializeCommit c))
    (hnz : ∀ str, hashObject str ≠ "")
    (cmds : List (String × String)) :
    ∀ j, ((visitList hashObject serializeCommit cmds j).map Prod.fst).Nodup := by
  intro j
  induction j with
  | zero => exact List.nodup_singleton _
  | succ j ih =>
    rw [show (visitList hashObject serializeCommit cmds (j + 1)).map Prod.fst
        = chainHash hashObject serializeCommit cmds (j + 1)
          :: (visitList hashObject serializeCommit cmds j).map Prod.fst from rfl]
    rw [List.nodup_cons]
    refine ⟨?_, ih⟩
    intro hmem
    obtain ⟨p, hp, hp1⟩ := List.mem_map.mp hmem
    obtain ⟨i, hi, rfl⟩ := visitList_mem_ex hashObject serializeCommit cmds j p hp
    have := chainHash_inj hashObject serializeCommit hinj hnz cmds i (j + 1) hp1
    omega

/-- The walk ends at chain position `0`: the root commit. -/
lemma visitList_getLast (cmds : List (String × String)) :
    ∀ j, (visitList hashObject serializeCommit cmds j).getLast?
      = some (chainHash hashObject serializeCommit cmds 0,
              chainCommit hashObject serializeCommit cmds 0) := by
  intro j
  induction j with
  | zero => rfl
  | succ j ih =>
    cases hj : visitList hashObject serializeCommit cmds j with
    | nil =>
      have := visitList_length hashObject serializeCommit cmds j
      rw [hj] at this
      exact absurd this (by simp)
    | cons q l =>
      rw [show visitList hashObject serializeCommit cmds (j + 1)
          = (chainHash hashObject serializeCommit cmds (j + 1),
             chainCommit hashObject serializeCommit cmds (j + 1))
            :: visitList hashObject serializeCommit cmds j from rfl]
      rw [hj, List.getLast?_cons_cons, ← hj, ih]

end ChainProofs

/-- A small evaluable stand-in for `JSON.stringify` on commit records,
adequate for concrete runs whose `message@timestamp` pairs are distinct. -/
def evalSerialize (c : CommitData) : String :=
  c.message ++ "@" ++ c.timestamp

/-- C3, counterexample: after a single `commit` on a freshly initialised
repository, walking from HEAD terminates at that root commit — but its
stored `parent` field is the empty string `""` (the content `getCurrentHead`
read from the empty HEAD file), not `null` as the claim states.  `null` is
stored only when the HEAD file is missing entirely. -/
theorem C3_counterexample :
    logWalk 2
        (getCurrentHead
          (runCommits sampleHash evalSerialize [("m", "t")] initialState))
        (runCommits sampleHash evalSerialize [("m", "t")] initialState)
      = some [("#m@t",
          { timestamp := "t", message := "m", files := [], parent := some "" })] ∧
    ({ timestamp := "t", message := "m", files := [],
       parent := some "" } : CommitData).parent ≠ none :=
  ⟨by decide, by decide⟩

/-- C3, amended: for every non-empty sequence of `commit` calls from a
freshly initialised repository (digests collision-free and non-empty),
walking from HEAD following `parent` links visits every created commit
exactly once, newest first, and terminates at the root commit — whose stored
`parent` is the empty string `""` (falsy, treated like `null` by the walk),
not `null`. -/
theorem C3_amended (hashObject : String → String)
    (serializeCommit : CommitData → String)
    (hinj : Function.Injective fun c => hashObject (serializeCommit c))
    (hnz : ∀ str, hashObject str ≠ "")
    (cmds : List (String × String)) (hne : cmds ≠ []) :
    logWalk (cmds.length + 1)
        (getCurrentHead (runCommits hashObject serializeCommit cmds initialState))
        (runCommits hashObject serializeCommit cmds initialState)
      = some (visitList hashObject serializeCommit cmds (cmds.length - 1)) ∧
    (visitList hashObject serializeCommit cmds (cmds.length - 1)).length
      = cmds.length ∧
    (∀ i, i < cmds.length →
      (chainHash hashObject serializeCommit cmds i,
       chainCommit hashObject serializeCommit cmds i)
        ∈ visitList hashObject serializeCommit cmds (cmds.length - 1)) ∧
    ((visitList hashObject serializeCommit cmds (cmds.length - 1)).map
        Prod.fst).Nodup ∧
    (visitList hashObject serializeCommit cmds (cmds.length - 1)).getLast?
      = some (chainHash hashObject serializeCommit cmds 0,
              chainCommit hashObject serializeCommit cmds 0) ∧
    (chainCommit hashObject serializeCommit cmds 0).parent = some "" := by
  have hpos : 0 < cmds.length := List.length_pos.mpr hne
  obtain ⟨m, hm⟩ : ∃ m, cmds.length = m + 1 := ⟨cmds.length - 1, by omega⟩
  have hmlt : m < cmds.length := by omega
  have hinv := runCommits_inv hashObject serializeCommit hinj hnz cmds
    cmds.length (Nat.le_refl _)
  rw [List.take_length] at hinv
  obtain ⟨-, hhead, -⟩ := hinv
  rw [hm] at hhead
  have hhead2 : getCurrentHead (runCommits hashObject serializeCommit cmds initialState)
      = some (chainHash hashObject serializeCommit cmds m) := hhead
  rw [hm]
  simp only [Nat.add_sub_cancel]
  refine ⟨?_, visitList_length hashObject serializeCommit cmds m,
    fun i hi => mem_visitList hashObject serializeCommit cmds m i (by omega),
    visitList_nodup hashObject serializeCommit hinj hnz cmds m,
    visitList_getLast hashObject serializeCommit cmds m, rfl⟩
  rw [hhead2]
  exact logWalk_visits hashObject serializeCommit hinj hnz cmds m hmlt

/-- Witness for the amended C3: one commit with the injective sample digest
and serializer. -/
theorem C3_amended_witness :
    (([("m", "t")] : List (String × String)) ≠ []) ∧
    (logWalk (([("m", "t")] : List (String × String)).length + 1)
        (getCurrentHead
          (runCommits sampleHash sampleSerialize [("m", "t")] initialState))
        (runCommits sampleHash sampleSerialize [("m", "t")] initialState)
      = some (visitList sampleHash sampleSerialize [("m", "t")]
          (([("m", "t")] : List (String × String)).length - 1)) ∧
    (visitList sampleHash sampleSerialize [("m", "t")]
        (([("m", "t")] : List (String × String)).length - 1)).length
      = ([("m", "t")] : List (String × String)).length ∧
    (∀ i, i < ([("m", "t")] : List (String × String)).length →
      (chainHash sampleHash sampleSerialize [("m", "t")] i,
       chainCommit sampleHash sampleSerialize [("m", "t")] i)
        ∈ visitList sampleHash sampleSerialize [("m", "t")]
            (([("m", "t")] : List (String × String)).length - 1)) ∧
    ((visitList sampleHash sampleSerialize [("m", "t")]
        (([("m", "t")] : List (String × String)).length - 1)).map
        Prod.fst).Nodup ∧
    (visitList sampleHash sampleSerialize [("m", "t")]
        (([("m", "t")] : List (String × String)).length - 1)).getLast?
      = some (chainHash sampleHash sampleSerialize [("m", "t")] 0,
              chainCommit sampleHash sampleSerialize [("m", "t")] 0) ∧
    (chainCommit sampleHash sampleSerialize [("m", "t")] 0).parent = some "") :=
  ⟨List.cons_ne_nil _ _,
   C3_amended sampleHash sampleSerialize sampleHashSerialize_injective
     sampleHash_ne_empty [("m", "t")] (List.cons_ne_nil _ _)⟩

end Coeus
